import Mathlib

/-!
# Verification of `diff.py` (unraid-backup)

Shallow embedding of the comparison/reporting pipeline of `src/diff.py`:
the directory-key grouping (`get_dir_key`), the comparator
(`compare_listings`), the human-readable formatters
(`human_readable_bytes`, `human_readable_time`), the scope filtering done
in `main`, and the report/fix-command emission of `print_report`.

Modelling conventions:
* Python strings are modelled as `List Char` (`Path`).
* Python `dict` file maps are association lists `List (Path × FileEntry)`
  with first-match lookup; the scripts build them from `dict` so keys are
  unique, but no theorem below needs that assumption.
* Python `datetime` values (already truncated to second precision and made
  timezone-naive by `get_file_listing`) are modelled as integers with the
  same order; byte counts are integers.
* Python `float` arithmetic in the formatters is modelled with exact
  rationals; `"%.1f"` formatting is modelled by rounding half-up at one
  decimal.  The two agree on every value these theorems evaluate (none is
  a rounding tie, and every intermediate value at issue is exactly
  representable or rounds identically).
* The nested `defaultdict(lambda: defaultdict(list))` change structure is
  modelled as a nested association list (`Changes`) with the same
  insertion-order and auto-vivification behaviour, because `print_report`
  observes the key set (dict truthiness) that vivification mutates.
-/

namespace UnraidBackup

/-- A file path: Python string, relative, `'/'`-separated. -/
abbrev Path := List Char

/-- The per-file metadata stored by `get_file_listing`:
`{'size': item['Size'], 'mod_time': dt_obj}`. -/
structure FileEntry where
  size : Int
  mod_time : Int
  deriving DecidableEq, Repr

/-- A file listing, Python `dict` from path to metadata. -/
abbrev FileMap := List (Path × FileEntry)

/-- First-match lookup, the semantics of Python `dict` indexing for the
maps built by `get_file_listing` (keys unique there). -/
def lookupEntry : FileMap → Path → Option FileEntry
  | [], _ => none
  | (p, e) :: rest, q => if p = q then some e else lookupEntry rest q

/-- The key list of a `FileMap` (Python `map.keys()`, in insertion order). -/
def mapKeys (m : FileMap) : List Path := m.map Prod.fst

/-- `get_dir_key`: `path.split('/')[0]` when the path contains a `'/'`,
else the literal sentinel `"(root)"`. -/
def get_dir_key (path : Path) : Path :=
  if ('/' : Char) ∈ path then path.takeWhile (fun c => c ≠ '/') else "(root)".toList

/-- The five divergence kinds used as inner dict keys by
`compare_listings` (`nas` is the destination, `cs` the source). -/
inductive Kind where
  | nas_only
  | cs_only
  | size_changed
  | nas_newer
  | cs_newer
  deriving DecidableEq, Repr

/-- The per-path classification logic of `compare_listings`: which bucket
(if any) a path is appended to, given its lookups in the two maps.
Mirrors the three loops' membership tests and the `if`/`elif` chain of
lines 159–176 of `diff.py`. -/
def classify (source_map dest_map : FileMap) (path : Path) : Option Kind :=
  match lookupEntry source_map path, lookupEntry dest_map path with
  | none, none => none
  | none, some _ => some .nas_only
  | some _, none => some .cs_only
  | some source_file, some dest_file =>
    if source_file.size ≠ dest_file.size then
      some .size_changed
    else if source_file.mod_time ≠ dest_file.mod_time then
      if dest_file.mod_time > source_file.mod_time then some .nas_newer
      else some .cs_newer
    else none

/-- The nested `defaultdict(lambda: defaultdict(list))` used for the change
set: outer keys in insertion order, inner keys in insertion order. -/
abbrev Inner := List (Kind × List Path)

/-- See `Inner`. -/
abbrev Changes := List (Path × Inner)

/-- Inner-dict read `d.get(k, [])`. -/
def getInner : Inner → Kind → List Path
  | [], _ => []
  | (k, v) :: rest, q => if k = q then v else getInner rest q

/-- `changes[dir][k].append(p)` on the inner defaultdict: vivify the kind
key at the end if missing, else append to its list. -/
def appendInner : Inner → Kind → Path → Inner
  | [], k, p => [(k, [p])]
  | (k', v) :: rest, k, p =>
    if k' = k then (k', v ++ [p]) :: rest else (k', v) :: appendInner rest k p

/-- `changes[dir]` read without vivification: the inner dict, or empty. -/
def getDir : Changes → Path → Inner
  | [], _ => []
  | (d, inner) :: rest, q => if d = q then inner else getDir rest q

/-- `changes[dir][k].append(p)` on the outer defaultdict. -/
def appendChange : Changes → Path → Kind → Path → Changes
  | [], dir, k, p => [(dir, appendInner [] k p)]
  | (d, inner) :: rest, dir, k, p =>
    if d = dir then (d, appendInner inner k p) :: rest
    else (d, inner) :: appendChange rest dir k p

/-- `changes[dir].get(k, [])`: the bucket of a directory/kind pair. -/
def getBucket (c : Changes) (dir : Path) (k : Kind) : List Path :=
  getInner (getDir c dir) k

/-- `changes.keys()` in insertion order. -/
def changesKeys (c : Changes) : List Path := c.map Prod.fst

/-- The paths of the first loop of `compare_listings`
(`dest_paths - source_paths`), enumerated in `dest_map` order. -/
def destOnlyPaths (source_map dest_map : FileMap) : List Path :=
  (mapKeys dest_map).filter (fun p => (lookupEntry source_map p).isNone)

/-- The paths of the second loop (`source_paths - dest_paths`). -/
def sourceOnlyPaths (source_map dest_map : FileMap) : List Path :=
  (mapKeys source_map).filter (fun p => (lookupEntry dest_map p).isNone)

/-- The paths of the third loop (`source_paths & dest_paths`), enumerated
in `source_map` order (Python set iteration order is unspecified; the
claims proved below do not depend on it). -/
def bothPaths (source_map dest_map : FileMap) : List Path :=
  (mapKeys source_map).filter (fun p => (lookupEntry dest_map p).isSome)

/-- One step of any of the three loops of `compare_listings`: append the
path to the bucket `classify` chooses, or leave the structure unchanged
(the `else` fall-through for identical entries). -/
def compareStep (source_map dest_map : FileMap) (c : Changes) (p : Path) : Changes :=
  match classify source_map dest_map p with
  | some k => appendChange c (get_dir_key p) k p
  | none => c

/-- `compare_listings`: the three loops run in sequence over an initially
empty defaultdict. On the paths of each loop `classify` agrees with the
branch the loop body takes, so one fold over their concatenation is the
same sequence of appends. -/
def compare_listings (source_map dest_map : FileMap) : Changes :=
  (destOnlyPaths source_map dest_map ++ sourceOnlyPaths source_map dest_map
      ++ bothPaths source_map dest_map).foldl
    (compareStep source_map dest_map) []

/-! ## Human-readable formatters -/

/-- Exact rational arithmetic standing in for Python `float`: an
unnormalized `num/den` pair.  Every operation below is used only with a
positive denominator (all divisors in the source are positive constants),
and every value the formatters are applied to in the theorems is exactly
representable, so this agrees with Python's binary floats there. -/
structure Frac where
  num : Int
  den : Int
  deriving DecidableEq, Repr

/-- Embed an integer (byte count, whole seconds). -/
def Frac.ofInt (n : Int) : Frac := ⟨n, 1⟩

/-- Division; valid at the call sites, where `b` is a positive constant. -/
def Frac.div (a b : Frac) : Frac := ⟨a.num * b.den, a.den * b.num⟩

/-- Addition. -/
def Frac.add (a b : Frac) : Frac := ⟨a.num * b.den + b.num * a.den, a.den * b.den⟩

/-- Multiplication. -/
def Frac.mul (a b : Frac) : Frac := ⟨a.num * b.num, a.den * b.den⟩

/-- `abs`, under the positive-denominator invariant. -/
def Frac.fabs (a : Frac) : Frac := ⟨|a.num|, a.den⟩

/-- `<`, by cross-multiplication (denominators positive). -/
def Frac.lt (a b : Frac) : Bool := a.num * b.den < b.num * a.den

/-- Value equality, by cross-multiplication (denominators positive). -/
def Frac.eqv (a b : Frac) : Bool := a.num * b.den = b.num * a.den

/-- Python `int()` of the non-negative values it is applied to here
(Int `/` is Euclidean division, which is `⌊·⌋` for a positive
denominator). -/
def Frac.floor (a : Frac) : Int := a.num / a.den

/-- Python `f"{q:.1f}"` for the non-negative values arising here: round to
one decimal, half up.  (Python rounds the underlying binary float half to
even; no value evaluated by the theorems below is a tie or differs from
its exact rational at the first decimal.) -/
def fmtOneDec (q : Frac) : String :=
  let n : Int := ((q.mul (Frac.ofInt 10)).add ⟨1, 2⟩).floor
  toString (n / 10) ++ "." ++ toString (n % 10)

/-- `power_labels` of `human_readable_bytes`. -/
def powerLabel : Nat → String
  | 0 => ""
  | 1 => "K"
  | 2 => "M"
  | 3 => "G"
  | _ => "T"

/-- The `while size_bytes >= power and n < len(power_labels) - 1` loop of
`human_readable_bytes`, with the remaining allowed promotions
(`len(power_labels) - 1 - n`) as structural fuel. -/
def hrbGo (size_bytes : Frac) (n fuel : Nat) : Frac × Nat :=
  match fuel with
  | 0 => (size_bytes, n)
  | fuel + 1 =>
    if (Frac.ofInt 1024).lt size_bytes || (Frac.ofInt 1024).eqv size_bytes then
      hrbGo (size_bytes.div (Frac.ofInt 1024)) (n + 1) fuel
    else (size_bytes, n)

/-- `human_readable_bytes`: `None` or negative → `"N/A"`, `0` → `"0B"`,
else divide by 1024 up to four times and render with one decimal and the
unit suffix. -/
def human_readable_bytes : Option Frac → String
  | none => "N/A"
  | some size_bytes =>
    if size_bytes.lt (Frac.ofInt 0) then "N/A"
    else if size_bytes.eqv (Frac.ofInt 0) then "0B"
    else
      let r := hrbGo size_bytes 0 4
      fmtOneDec r.1 ++ powerLabel r.2 ++ "B"

/-- `human_readable_time`, on the total seconds of the `timedelta`
argument. -/
def human_readable_time (time_diff : Frac) : String :=
  let seconds := time_diff.fabs
  if seconds.lt (Frac.ofInt 60) then
    toString seconds.floor ++ " second" ++
      (if !seconds.eqv (Frac.ofInt 1) then "s" else "")
  else if seconds.lt (Frac.ofInt 3600) then
    let m := (seconds.div (Frac.ofInt 60)).floor
    toString m ++ " minute" ++ (if m ≠ 1 then "s" else "")
  else if seconds.lt (Frac.ofInt 86400) then
    fmtOneDec (seconds.div (Frac.ofInt 3600)) ++ " hour" ++
      (if !(seconds.div (Frac.ofInt 3600)).eqv (Frac.ofInt 1) then "s" else "")
  else if seconds.lt (Frac.ofInt 604800) then
    fmtOneDec (seconds.div (Frac.ofInt 86400)) ++ " day" ++
      (if !(seconds.div (Frac.ofInt 86400)).eqv (Frac.ofInt 1) then "s" else "")
  else
    let days : Int := (seconds.div (Frac.ofInt 86400)).floor
    if days < 30 then
      let weeks := days / 7
      let rem_days := days % 7
      toString weeks ++ " week" ++ (if weeks ≠ 1 then "s" else "") ++ ", " ++
        toString rem_days ++ " day" ++ (if rem_days ≠ 1 then "s" else "")
    else if days < 365 then
      let months := days / 30
      let weeks := days % 30 / 7
      toString months ++ " month" ++ (if months ≠ 1 then "s" else "") ++ ", " ++
        toString weeks ++ " week" ++ (if weeks ≠ 1 then "s" else "")
    else
      let years := days / 365
      let months := days % 365 / 30
      toString years ++ " year" ++ (if years ≠ 1 then "s" else "") ++ ", " ++
        toString months ++ " month" ++ (if months ≠ 1 then "s" else "")

/-! ## Scope filtering (`main`, lines 310–320) -/

/-- The final set of top-level directories to compare:
`set(args.tlds)`, defaulted to all directory keys of either map when
empty, then minus `set(args.exclude)` (the subtraction is a no-op when no
excludes were given, so it is applied unconditionally here). -/
def finalTlds (tlds exclude : List Path) (source_map_full dest_map_full : FileMap) :
    List Path :=
  let tlds_to_process :=
    if tlds.dedup = [] then
      ((mapKeys source_map_full ++ mapKeys dest_map_full).map get_dir_key).dedup
    else tlds.dedup
  tlds_to_process.filter (fun d => d ∉ exclude)

/-- `{path: data for path, data in m.items() if get_dir_key(path) in tlds_to_process}`. -/
def filterMapByTlds (tlds_to_process : List Path) (m : FileMap) : FileMap :=
  m.filter (fun pe => get_dir_key pe.1 ∈ tlds_to_process)

/-! ## `print_report` (lines 179–284)

The printed output is modelled as a list of structured events, one per
`print` call (ANSI colour escapes and column padding are cosmetic and not
modelled; strings computed by the formatters are).  The source's
`changes` argument is a `defaultdict`, and the summary loop's
`changes[dir_name]` reads vivify one (empty) inner dict per listed
directory, which is what the later `if not changes:` and
`sorted(changes.keys())` observe. -/

/-- One printed line of `print_report`. -/
inductive ReportEvent where
  | summaryHeader
  | summaryRow (dir : Path) (nas_c cs_c sc_c nn_c csn_c : Nat)
  | totalRow (total_nas_hr total_cs_hr : String)
  | noDifferences
  | detailsHeader
  | dirHeader (dir : Path)
  | fixHeader
  | fixCopyNewHeader (dir : Path)
  | fixCopyChangedHeader (dir : Path)
  | fixTouchCsHeader (dir : Path)
  | fixTouchNasHeader (dir : Path)
  | mkdirCmd (dest_dir : Path)
  | scpCmd (source_full_path dest_path : Path)
  | touchCmd (mod_time : Int) (dest_path : Path)
  | detailTitle (k : Kind) (count : Nat)
  | detailLine (k : Kind) (item : Path) (details : String)
  | moreLine (count : Nat)
  deriving DecidableEq, Repr

/-- Lexicographic string order by code point, Python `sorted` on `str`. -/
def strLe : Path → Path → Bool
  | [], _ => true
  | _ :: _, [] => false
  | a :: as, b :: bs => if a = b then strLe as bs else decide (a < b)

/-- Insert into a `strLe`-sorted list. -/
def insertSorted (x : Path) : List Path → List Path
  | [] => [x]
  | y :: ys => if strLe x y then x :: y :: ys else y :: insertSorted x ys

/-- Python `sorted` for lists of (distinct) strings. -/
def sortDirs (l : List Path) : List Path := l.foldr insertSorted []

/-- `os.path.join` for the POSIX paths occurring here. -/
def pathJoin (a b : Path) : Path :=
  if b.head? = some '/' then b
  else if a = [] ∨ a.getLast? = some '/' then a ++ b
  else a ++ '/' :: b

/-- `os.path.dirname` (POSIX): the part up to the last separator, with
trailing separators stripped unless the head is all separators. -/
def dirname (p : Path) : Path :=
  let head := (p.reverse.dropWhile (fun c => c ≠ '/')).reverse
  if head.all (fun c => c = '/') then head
  else (head.reverse.dropWhile (fun c => c = '/')).reverse

/-- `NAS_BASE_PATH = "/mnt/user"`. -/
def NAS_BASE_PATH : Path := "/mnt/user".toList

/-- `SOURCE_PATH_CONFIG = "/mnt/backup"`. -/
def SOURCE_PATH_CONFIG : Path := "/mnt/backup".toList

/-- `SOURCE_NAME = "coldstorage"`. -/
def SOURCE_NAME : String := "coldstorage"

/-- `DEST_NAME = "nas"`. -/
def DEST_NAME : String := "nas"

/-- `m.get(path, {}).get('size', 0)`. -/
def sizeOrZero (m : FileMap) (p : Path) : Int :=
  match lookupEntry m p with
  | some e => e.size
  | none => 0

/-- `m[path]['mod_time']` for paths known to be present (the newer/older
buckets only ever hold paths present in both maps; the default is never
reached on the inputs `print_report` receives). -/
def modTimeAt (m : FileMap) (p : Path) : Int :=
  match lookupEntry m p with
  | some e => e.mod_time
  | none => 0

/-- The `details` annotation string of a detail line (colour escapes and
the surrounding bold markers omitted). -/
def detailsFor (source_map dest_map : FileMap)
    (source_display_name dest_display_name : String) (k : Kind) (item : Path) :
    String :=
  match k with
  | .size_changed =>
    let nas_size := human_readable_bytes
      ((lookupEntry dest_map item).map (fun e => Frac.ofInt e.size))
    let cs_size := human_readable_bytes
      ((lookupEntry source_map item).map (fun e => Frac.ofInt e.size))
    "(" ++ nas_size ++ " on " ++ dest_display_name ++ ", " ++ cs_size ++ " on " ++
      source_display_name ++ ")"
  | .nas_newer =>
    let hr_diff := human_readable_time
      (Frac.ofInt |modTimeAt dest_map item - modTimeAt source_map item|)
    "(" ++ hr_diff ++ " newer on " ++ dest_display_name ++ ")"
  | .cs_newer =>
    let hr_diff := human_readable_time
      (Frac.ofInt |modTimeAt dest_map item - modTimeAt source_map item|)
    "(" ++ hr_diff ++ " newer on " ++ source_display_name ++ ")"
  | _ => ""

/-- The fix-command events for one directory of the inner
`for dir_name in sorted(changes.keys())` loop (lines 227–264): copy
commands for `cs_only` and `size_changed`, then `touch` commands for
`cs_newer` and `nas_newer` (both set the destination to the source
timestamp, as the source does). -/
def fixCommandsForDir (changes : Changes) (source_map : FileMap)
    (source_path_for_fix : Path) (d : Path) : List ReportEvent :=
  let copyNew :=
    let to_copy := getBucket changes d .cs_only
    if to_copy = [] then [] else
      .fixCopyNewHeader d :: to_copy.flatMap (fun p =>
        let source_full_path := pathJoin source_path_for_fix p
        let dest_path := pathJoin NAS_BASE_PATH p
        [.mkdirCmd (dirname dest_path), .scpCmd source_full_path dest_path])
  let copyChanged :=
    let to_copy := getBucket changes d .size_changed
    if to_copy = [] then [] else
      .fixCopyChangedHeader d :: to_copy.flatMap (fun p =>
        let source_full_path := pathJoin source_path_for_fix p
        let dest_path := pathJoin NAS_BASE_PATH p
        [.mkdirCmd (dirname dest_path), .scpCmd source_full_path dest_path])
  let touchCs :=
    let to_touch := getBucket changes d .cs_newer
    if to_touch = [] then [] else
      .fixTouchCsHeader d :: to_touch.map (fun p =>
        .touchCmd (modTimeAt source_map p) (pathJoin NAS_BASE_PATH p))
  let touchNas :=
    let to_touch := getBucket changes d .nas_newer
    if to_touch = [] then [] else
      .fixTouchNasHeader d :: to_touch.map (fun p =>
        .touchCmd (modTimeAt source_map p) (pathJoin NAS_BASE_PATH p))
  copyNew ++ copyChanged ++ touchCs ++ touchNas

/-- The detail events for one directory (the `else` branch, lines
266–284), iterating `detail_map` in its fixed order. -/
def detailsForDir (changes : Changes) (source_map dest_map : FileMap)
    (show_all : Bool) (source_display_name dest_display_name : String) (d : Path) :
    List ReportEvent :=
  [Kind.nas_only, Kind.cs_only, Kind.size_changed, Kind.nas_newer,
    Kind.cs_newer].flatMap (fun k =>
    let items := getBucket changes d k
    if items = [] then [] else
      [.detailTitle k items.length] ++
        (items.take (if show_all then items.length else 3)).map (fun item =>
          .detailLine k item
            (detailsFor source_map dest_map source_display_name dest_display_name
              k item)) ++
        (if !show_all && decide (items.length > 3) then
          [.moreLine (items.length - 3)]
        else []))

/-- `print_report` as the list of lines it prints, in order.  The local
`keys1` is the outer dict's key list after the summary loop's
`changes[dir_name]` reads vivified every listed directory; the `if not
changes:` guard and the fix block's `sorted(changes.keys())` both observe
it. -/
def print_report (changes : Changes) (source_map dest_map : FileMap)
    (show_all show_fix : Bool) (source_path_for_fix : Path)
    (source_display_name dest_display_name : String) : List ReportEvent :=
  let all_dirs_sorted := sortDirs
    (((mapKeys source_map).map get_dir_key ++
      (mapKeys dest_map).map get_dir_key).dedup)
  let total_nas_size : Int := ((changesKeys changes).map (fun d =>
    ((getBucket changes d .nas_only).map (sizeOrZero dest_map)).sum)).sum
  let total_cs_size : Int := ((changesKeys changes).map (fun d =>
    ((getBucket changes d .cs_only).map (sizeOrZero source_map)).sum)).sum
  let summary :=
    [ReportEvent.summaryHeader] ++
      all_dirs_sorted.map (fun d =>
        ReportEvent.summaryRow d (getBucket changes d .nas_only).length
          (getBucket changes d .cs_only).length
          (getBucket changes d .size_changed).length
          (getBucket changes d .nas_newer).length
          (getBucket changes d .cs_newer).length) ++
      [ReportEvent.totalRow (human_readable_bytes (some (Frac.ofInt total_nas_size)))
        (human_readable_bytes (some (Frac.ofInt total_cs_size)))]
  let keys1 := changesKeys changes ++
    all_dirs_sorted.filter (fun d => d ∉ changesKeys changes)
  if keys1 = [] then summary ++ [ReportEvent.noDifferences]
  else
    summary ++ [ReportEvent.detailsHeader] ++
      (sortDirs all_dirs_sorted).flatMap (fun d =>
        if getDir changes d = [] then []
        else
          ReportEvent.dirHeader d ::
            (if show_fix then
              ReportEvent.fixHeader ::
                (sortDirs keys1).flatMap
                  (fixCommandsForDir changes source_map source_path_for_fix)
            else
              detailsForDir changes source_map dest_map show_all
                source_display_name dest_display_name d))

/-- The report of a full run: `print_report(compare_listings(source_map,
dest_map), source_map, dest_map, ...)` with the configured display names
and (non-snapshot) source path, as called from `main` (line 327). -/
def report (source_map dest_map : FileMap) (show_all show_fix : Bool) :
    List ReportEvent :=
  print_report (compare_listings source_map dest_map) source_map dest_map
    show_all show_fix SOURCE_PATH_CONFIG SOURCE_NAME DEST_NAME

/-! ## Characterization of the change buckets -/

/-- Appending to one inner bucket leaves every other bucket unchanged and
extends that one at the end. -/
theorem getInner_appendInner (inner : Inner) (k q : Kind) (p : Path) :
    getInner (appendInner inner k p) q =
      if q = k then getInner inner q ++ [p] else getInner inner q := by
  induction inner with
  | nil =>
    by_cases h : q = k
    · subst h
      simp [appendInner, getInner]
    · simp [appendInner, getInner, h, Ne.symm h]
  | cons kv rest ih =>
    obtain ⟨k0, v⟩ := kv
    by_cases h0 : k0 = k
    · subst h0
      by_cases h : q = k0
      · subst h
        simp [appendInner, getInner]
      · simp [appendInner, getInner, h, Ne.symm h]
    · by_cases h : q = k0
      · subst h
        simp [appendInner, getInner, h0, Ne.symm h0]
      · simp [appendInner, getInner, h0, h, Ne.symm h, ih]

/-- Appending under one directory key leaves other directories unchanged
and applies `appendInner` to that one. -/
theorem getDir_appendChange (c : Changes) (dir q : Path) (k : Kind) (p : Path) :
    getDir (appendChange c dir k p) q =
      if q = dir then appendInner (getDir c dir) k p else getDir c q := by
  induction c with
  | nil =>
    by_cases h : q = dir
    · subst h
      simp [appendChange, getDir]
    · simp [appendChange, getDir, h, Ne.symm h]
  | cons dv rest ih =>
    obtain ⟨d0, inner⟩ := dv
    by_cases h0 : d0 = dir
    · subst h0
      by_cases h : q = d0
      · subst h
        simp [appendChange, getDir]
      · simp [appendChange, getDir, h, Ne.symm h]
    · by_cases h : q = d0
      · subst h
        simp [appendChange, getDir, h0, Ne.symm h0]
      · simp [appendChange, getDir, h0, h, Ne.symm h, ih]

/-- The effect of one `changes[dir][k].append(p)` on an arbitrary bucket. -/
theorem getBucket_appendChange (c : Changes) (dir k) (p : Path) (dir1 : Path) (k1 : Kind) :
    getBucket (appendChange c dir k p) dir1 k1 =
      if dir1 = dir ∧ k1 = k then getBucket c dir1 k1 ++ [p]
      else getBucket c dir1 k1 := by
  unfold getBucket
  rw [getDir_appendChange]
  by_cases hd : dir1 = dir
  · subst hd
    rw [if_pos rfl, getInner_appendInner]
    by_cases hk : k1 = k <;> simp [hk]
  · simp [hd]

/-- Folding comparison steps over a path list appends, to every bucket,
exactly the traversed paths classified into it, in traversal order. -/
theorem getBucket_foldl (s d : FileMap) (ps : List Path) (c : Changes)
    (dir : Path) (k : Kind) :
    getBucket (ps.foldl (compareStep s d) c) dir k =
      getBucket c dir k ++ ps.filter (fun p =>
        decide (get_dir_key p = dir) && decide (classify s d p = some k)) := by
  induction ps generalizing c with
  | nil => simp
  | cons p ps ih =>
    simp only [List.foldl_cons, List.filter_cons]
    rw [ih]
    unfold compareStep
    cases hcl : classify s d p with
    | none => simp
    | some k0 =>
      rw [getBucket_appendChange]
      by_cases hd : get_dir_key p = dir
      · by_cases hk : k0 = k
        · subst hk
          rw [if_pos ⟨hd.symm, rfl⟩]
          simp [hd, List.append_assoc]
        · rw [if_neg (fun hc => hk hc.2.symm)]
          simp [hd, hk]
      · rw [if_neg (fun hc => hd hc.1.symm)]
        simp [hd]

/-- The buckets `compare_listings` builds: for every directory key and
kind, the paths of the three loops that classify into that bucket, in
loop order. -/
theorem getBucket_compare_listings (s d : FileMap) (dir : Path) (k : Kind) :
    getBucket (compare_listings s d) dir k =
      (destOnlyPaths s d ++ sourceOnlyPaths s d ++ bothPaths s d).filter
        (fun p => decide (get_dir_key p = dir) && decide (classify s d p = some k)) := by
  unfold compare_listings
  rw [getBucket_foldl]
  simp [getBucket, getDir, getInner]

/-- Lookup succeeds exactly on the keys of the map. -/
theorem lookupEntry_isSome_iff (m : FileMap) (p : Path) :
    (lookupEntry m p).isSome ↔ p ∈ mapKeys m := by
  induction m with
  | nil => simp [lookupEntry, mapKeys]
  | cons qe rest ih =>
    obtain ⟨q, e⟩ := qe
    show (if q = p then some e else lookupEntry rest p).isSome ↔ p ∈ q :: mapKeys rest
    by_cases h : q = p
    · subst h
      simp
    · rw [if_neg h]
      simp [List.mem_cons, ih, Ne.symm h]

/-- The concatenation of the three loops' path lists enumerates exactly
the paths present in either map. -/
theorem mem_loops_iff (s d : FileMap) (p : Path) :
    p ∈ destOnlyPaths s d ++ sourceOnlyPaths s d ++ bothPaths s d ↔
      ((lookupEntry s p).isSome ∨ (lookupEntry d p).isSome) := by
  simp only [destOnlyPaths, sourceOnlyPaths, bothPaths, List.mem_append,
    List.mem_filter, ← lookupEntry_isSome_iff]
  cases hs : lookupEntry s p <;> cases hd : lookupEntry d p <;> simp

/-- Membership in a bucket of `compare_listings` is exactly: the path is
classified into that kind and the directory key is the path's. -/
theorem mem_getBucket_iff (s d : FileMap) (p dir : Path) (k : Kind) :
    p ∈ getBucket (compare_listings s d) dir k ↔
      (classify s d p = some k ∧ get_dir_key p = dir) := by
  rw [getBucket_compare_listings, List.mem_filter]
  constructor
  · rintro ⟨-, hcond⟩
    simp only [Bool.and_eq_true, decide_eq_true_eq] at hcond
    exact ⟨hcond.2, hcond.1⟩
  · rintro ⟨hcl, hdir⟩
    refine ⟨?_, by simp [hcl, hdir]⟩
    rw [mem_loops_iff]
    unfold classify at hcl
    cases hs : lookupEntry s p <;> cases hd : lookupEntry d p <;>
      simp [hs, hd] at hcl ⊢

/-- No fix-command event is a detail line. -/
theorem detailLine_not_mem_fixCommandsForDir (c : Changes) (sm : FileMap)
    (sp d2 : Path) (k : Kind) (item : Path) (dtl : String) :
    ReportEvent.detailLine k item dtl ∉ fixCommandsForDir c sm sp d2 := by
  simp only [fixCommandsForDir]
  split_ifs <;> simp [List.mem_append, List.mem_flatMap, List.mem_map, List.mem_cons]

/-- A detail line printed for a directory names an item of that
directory's bucket for its kind. -/
theorem detailLine_mem_detailsForDir (c : Changes) (sm dm : FileMap) (a : Bool)
    (sn dn : String) (dir : Path) (k : Kind) (item : Path) (dtl : String)
    (h : ReportEvent.detailLine k item dtl ∈ detailsForDir c sm dm a sn dn dir) :
    item ∈ getBucket c dir k := by
  simp only [detailsForDir, List.mem_flatMap] at h
  obtain ⟨k0, hk0, hmem⟩ := h
  by_cases hnil : getBucket c dir k0 = []
  · simp [hnil] at hmem
  · rw [if_neg hnil] at hmem
    simp only [List.mem_append, List.mem_cons, List.mem_map] at hmem
    rcases hmem with ((h1 | ⟨item0, hitem0, heq⟩) | h2)
    · exact absurd h1 (by simp)
    · injection heq with e1 e2 e3
      subst e1
      subst e2
      exact List.mem_of_mem_take hitem0
    · by_cases ha : !a && decide (List.length (getBucket c dir k0) > 3)
      · simp [ha] at h2
      · simp [ha] at h2

/-- Every detail line anywhere in the report names an item of some
bucket of its kind. -/
theorem detailLine_mem_print_report (c : Changes) (sm dm : FileMap) (a f : Bool)
    (sp : Path) (sn dn : String) (k : Kind) (item : Path) (dtl : String)
    (h : ReportEvent.detailLine k item dtl ∈ print_report c sm dm a f sp sn dn) :
    ∃ dir, item ∈ getBucket c dir k := by
  simp only [print_report] at h
  split at h
  · simp [List.mem_append, List.mem_map] at h
  · simp only [List.append_assoc, List.mem_append, List.mem_cons, List.mem_map,
      List.mem_flatMap, List.mem_singleton] at h
    rcases h with h | h | h | h | ⟨dir, hdir, hmem⟩
    · simp at h
    · simp at h
    · simp at h
    · simp at h
    · refine ⟨dir, ?_⟩
      by_cases hempty : getDir c dir = []
      · rw [if_pos hempty] at hmem
        simp at hmem
      · rw [if_neg hempty] at hmem
        rcases List.mem_cons.1 hmem with heq | hmem2
        · exact absurd heq (by simp)
        · cases f with
          | true =>
            rw [if_pos rfl] at hmem2
            rcases List.mem_cons.1 hmem2 with heq2 | hmem3
            · exact absurd heq2 (by simp)
            · rw [List.mem_flatMap] at hmem3
              obtain ⟨d2, hd2, hmem4⟩ := hmem3
              exact absurd hmem4 (detailLine_not_mem_fixCommandsForDir c sm sp d2 k item dtl)
          | false =>
            rw [if_neg (by simp)] at hmem2
            exact detailLine_mem_detailsForDir c sm dm a sn dn dir k item dtl hmem2


/-! ## Claims about `get_dir_key` -/

/-- `takeWhile` over a list with its first separator made explicit. -/
theorem takeWhile_before_slash (pre rest : List Char) (h : ('/' : Char) ∉ pre) :
    (pre ++ '/' :: rest).takeWhile (fun c => c ≠ '/') = pre := by
  induction pre with
  | nil => simp [List.takeWhile_cons]
  | cons a as ih =>
    have ha : a ≠ '/' := by
      intro hh
      subst hh
      exact h (List.mem_cons_self _ _)
    have hrest : ('/' : Char) ∉ as := fun hm => h (List.mem_cons_of_mem a hm)
    show List.takeWhile (fun c => c ≠ '/') (a :: (as ++ '/' :: rest)) = a :: as
    rw [List.takeWhile_cons_of_pos (by simp [ha]), ih hrest]

/-- C7: the DirectoryKey of a path with no `'/'` is the sentinel
`"(root)"`, and of any other path is its prefix before the first `'/'`. -/
theorem get_dir_key_first_segment (path : Path) :
    (('/' : Char) ∉ path → get_dir_key path = "(root)".toList) ∧
    (∀ pre rest : List Char, path = pre ++ '/' :: rest → ('/' : Char) ∉ pre →
      get_dir_key path = pre) := by
  constructor
  · intro h
    simp [get_dir_key, h]
  · rintro pre rest rfl h
    have hm : ('/' : Char) ∈ pre ++ '/' :: rest := by simp
    unfold get_dir_key
    rw [if_pos hm]
    exact takeWhile_before_slash pre rest h

/-- Witness for C7 at `"a/b"` and `"ab"`. -/
theorem get_dir_key_first_segment_witness :
    get_dir_key "a/b".toList = "a".toList ∧ get_dir_key "ab".toList = "(root)".toList :=
  ⟨(get_dir_key_first_segment "a/b".toList).2 "a".toList "b".toList (by decide)
      (by decide),
   (get_dir_key_first_segment "ab".toList).1 (by decide)⟩

/-- C10: a path that begins with `'/'` gets the empty directory key (the
text before the first separator), not the `"(root)"` sentinel. -/
theorem get_dir_key_leading_separator (rest : List Char) :
    get_dir_key ('/' :: rest) = [] ∧ get_dir_key ('/' :: rest) ≠ "(root)".toList := by
  have h : get_dir_key ('/' :: rest) = [] := by
    unfold get_dir_key
    rw [if_pos (List.mem_cons_self '/' rest)]
    simp [List.takeWhile_cons]
  refine ⟨h, ?_⟩
  rw [h]
  decide

/-! ## Claims about the Comparator -/

/-- C1: a path present in both maps with differing sizes is classified
`size_changed` and nothing else, in its own directory bucket — whatever
the two timestamps are. -/
theorem size_mismatch_only_size_changed (s d : FileMap) (p : Path)
    (sf df : FileEntry) (hs : lookupEntry s p = some sf)
    (hd : lookupEntry d p = some df) (hsize : sf.size ≠ df.size) :
    ∀ dir k, p ∈ getBucket (compare_listings s d) dir k ↔
      (dir = get_dir_key p ∧ k = Kind.size_changed) := by
  have hcl : classify s d p = some Kind.size_changed := by
    unfold classify
    rw [hs, hd]
    simp [hsize]
  intro dir k
  rw [mem_getBucket_iff, hcl]
  constructor
  · rintro ⟨hk, hdir⟩
    cases hk
    exact ⟨hdir.symm, rfl⟩
  · rintro ⟨rfl, rfl⟩
    exact ⟨rfl, rfl⟩

/-- Witness for C1: sizes 100 ≠ 200 with timestamps 5 ≠ 9 classify only
`size_changed`. -/
theorem size_mismatch_only_size_changed_witness :
    "foo/a".toList ∈
      getBucket
        (compare_listings [("foo/a".toList, ⟨100, 5⟩)] [("foo/a".toList, ⟨200, 9⟩)])
        "foo".toList Kind.size_changed :=
  (size_mismatch_only_size_changed [("foo/a".toList, ⟨100, 5⟩)]
      [("foo/a".toList, ⟨200, 9⟩)] "foo/a".toList ⟨100, 5⟩ ⟨200, 9⟩ (by decide)
      (by decide) (by decide) "foo".toList Kind.size_changed).mpr (by decide)

/-- C2: for a path in both maps with equal sizes, a strictly later
destination timestamp classifies it `nas_newer`, any other differing
timestamp `cs_newer`; equal timestamps leave it in no bucket and on no
detail line of the report. -/
theorem equal_size_timestamp_classification (s d : FileMap) (p : Path)
    (sf df : FileEntry) (hs : lookupEntry s p = some sf)
    (hd : lookupEntry d p = some df) (hsize : sf.size = df.size) :
    (sf.mod_time ≠ df.mod_time →
      ((p ∈ getBucket (compare_listings s d) (get_dir_key p) Kind.nas_newer ↔
          sf.mod_time < df.mod_time) ∧
        (p ∈ getBucket (compare_listings s d) (get_dir_key p) Kind.cs_newer ↔
          ¬ sf.mod_time < df.mod_time))) ∧
    (sf.mod_time = df.mod_time →
      (∀ dir k, p ∉ getBucket (compare_listings s d) dir k) ∧
      ∀ a f dtl k2, ReportEvent.detailLine k2 p dtl ∉ report s d a f) := by
  constructor
  · intro hmt
    have hcl : classify s d p =
        (if df.mod_time > sf.mod_time then some Kind.nas_newer
          else some Kind.cs_newer) := by
      unfold classify
      rw [hs, hd]
      simp [hsize, hmt]
    by_cases hgt : sf.mod_time < df.mod_time
    · rw [if_pos hgt] at hcl
      constructor <;> rw [mem_getBucket_iff, hcl] <;> simp [hgt]
    · rw [if_neg hgt] at hcl
      constructor <;> rw [mem_getBucket_iff, hcl] <;> simp [hgt]
  · intro heq
    have hcl : classify s d p = none := by
      unfold classify
      rw [hs, hd]
      simp [hsize, heq]
    have hnone : ∀ dir k, p ∉ getBucket (compare_listings s d) dir k := by
      intro dir k hmem
      rw [mem_getBucket_iff, hcl] at hmem
      exact Option.noConfusion hmem.1
    refine ⟨hnone, ?_⟩
    intro a f dtl k2 hmem
    unfold report at hmem
    obtain ⟨dir, hb⟩ := detailLine_mem_print_report _ _ _ _ _ _ _ _ _ _ _ hmem
    exact hnone dir k2 hb

/-- Witness for C2: equal sizes with destination timestamp 9 > 5 classify
`nas_newer`. -/
theorem equal_size_timestamp_classification_witness :
    "foo/a".toList ∈
      getBucket
        (compare_listings [("foo/a".toList, ⟨100, 5⟩)] [("foo/a".toList, ⟨100, 9⟩)])
        (get_dir_key "foo/a".toList) Kind.nas_newer :=
  (((equal_size_timestamp_classification [("foo/a".toList, ⟨100, 5⟩)]
      [("foo/a".toList, ⟨100, 9⟩)] "foo/a".toList ⟨100, 5⟩ ⟨100, 9⟩ (by decide)
      (by decide) (by decide)).1 (by decide)).1).mpr (by decide)

/-- C3: a path present on exactly one side lands in `nas_only` resp.
`cs_only` under its own directory key, and any path is in at most one
(directory, kind) bucket. -/
theorem symmetric_difference_and_uniqueness (s d : FileMap) (p : Path) :
    ((lookupEntry s p = none → (lookupEntry d p).isSome →
        p ∈ getBucket (compare_listings s d) (get_dir_key p) Kind.nas_only) ∧
      (lookupEntry d p = none → (lookupEntry s p).isSome →
        p ∈ getBucket (compare_listings s d) (get_dir_key p) Kind.cs_only)) ∧
    (∀ dir1 k1 dir2 k2, p ∈ getBucket (compare_listings s d) dir1 k1 →
      p ∈ getBucket (compare_listings s d) dir2 k2 → dir1 = dir2 ∧ k1 = k2) := by
  refine ⟨⟨?_, ?_⟩, ?_⟩
  · intro h1 h2
    rw [mem_getBucket_iff]
    obtain ⟨df, hdf⟩ := Option.isSome_iff_exists.1 h2
    refine ⟨?_, rfl⟩
    unfold classify
    rw [h1, hdf]
  · intro h1 h2
    rw [mem_getBucket_iff]
    obtain ⟨sf, hsf⟩ := Option.isSome_iff_exists.1 h2
    refine ⟨?_, rfl⟩
    unfold classify
    rw [h1, hsf]
  · intro dir1 k1 dir2 k2 hm1 hm2
    rw [mem_getBucket_iff] at hm1 hm2
    refine ⟨hm1.2.symm.trans hm2.2, ?_⟩
    have := hm1.1.symm.trans hm2.1
    exact Option.some_injective _ this

/-- Witness for C3: `"b/y"` only in the destination is `nas_only` under
`"b"`; `"a/x"` only in the source is `cs_only` under `"a"`. -/
theorem symmetric_difference_and_uniqueness_witness :
    "b/y".toList ∈
      getBucket (compare_listings [("a/x".toList, ⟨1, 2⟩)] [("b/y".toList, ⟨3, 4⟩)])
        (get_dir_key "b/y".toList) Kind.nas_only ∧
    "a/x".toList ∈
      getBucket (compare_listings [("a/x".toList, ⟨1, 2⟩)] [("b/y".toList, ⟨3, 4⟩)])
        (get_dir_key "a/x".toList) Kind.cs_only :=
  ⟨(symmetric_difference_and_uniqueness [("a/x".toList, ⟨1, 2⟩)]
      [("b/y".toList, ⟨3, 4⟩)] "b/y".toList).1.1 (by decide) (by decide),
   (symmetric_difference_and_uniqueness [("a/x".toList, ⟨1, 2⟩)]
      [("b/y".toList, ⟨3, 4⟩)] "a/x".toList).1.2 (by decide) (by decide)⟩

/-! ## Claims about the formatters -/

/-- C6 counterexample: 90000 seconds does not format as `"1.0 day"` — the
pluralization test `seconds / 86400 != 1` uses the exact ratio
(90000/86400 ≈ 1.0417 ≠ 1), so the unit is pluralized even though the
rounded display reads `1.0`. -/
theorem human_readable_time_90000_plural :
    human_readable_time (Frac.ofInt 90000) ≠ "1.0 day" := by decide

/-- C6 amended: 45 s → `"45 seconds"`, 90 s → `"1 minute"`,
7200 s → `"2.0 hours"`, and 90000 s → `"1.0 days"` (plural, since the
exact magnitude differs from 1 even though it displays as 1.0); exactly
86400 s is the singular `"1.0 day"`. -/
theorem human_readable_time_examples :
    human_readable_time (Frac.ofInt 45) = "45 seconds" ∧
    human_readable_time (Frac.ofInt 90) = "1 minute" ∧
    human_readable_time (Frac.ofInt 7200) = "2.0 hours" ∧
    human_readable_time (Frac.ofInt 90000) = "1.0 days" ∧
    human_readable_time (Frac.ofInt 86400) = "1.0 day" := by decide

/-- C8: byte formatting maps 0 to `"0B"`, 1536 to `"1.5KB"`, 2^30 to
`"1.0GB"`, and a missing or any negative size to `"N/A"`. -/
theorem human_readable_bytes_spec :
    human_readable_bytes none = "N/A" ∧
    human_readable_bytes (some (Frac.ofInt 0)) = "0B" ∧
    human_readable_bytes (some (Frac.ofInt 1536)) = "1.5KB" ∧
    human_readable_bytes (some (Frac.ofInt 1073741824)) = "1.0GB" ∧
    ∀ n : Int, n < 0 → human_readable_bytes (some (Frac.ofInt n)) = "N/A" := by
  refine ⟨by decide, by decide, by decide, by decide, ?_⟩
  intro n hn
  have hlt : (Frac.ofInt n).lt (Frac.ofInt 0) = true := by
    simp [Frac.lt, Frac.ofInt, hn]
  simp [human_readable_bytes, hlt]

/-- Witness for C8 at the negative size −5. -/
theorem human_readable_bytes_spec_witness :
    human_readable_bytes (some (Frac.ofInt (-5))) = "N/A" :=
  human_readable_bytes_spec.2.2.2.2 (-5) (by decide)

/-! ## Claim about scope filtering -/

/-- C9: with include list `{A, B}` and exclude list `{B}` the final key
set is `{A}`, so exactly the entries with directory key `A` survive —
whatever the unfiltered maps contain, and identically for any map the
filter is applied to. -/
theorem scope_filtering_include_exclude (A B : Path) (hAB : A ≠ B)
    (source_map_full dest_map_full m : FileMap) (p : Path) (e : FileEntry) :
    (p, e) ∈ filterMapByTlds (finalTlds [A, B] [B] source_map_full dest_map_full) m ↔
      ((p, e) ∈ m ∧ get_dir_key p = A) := by
  have hfin : finalTlds [A, B] [B] source_map_full dest_map_full = [A] := by
    simp [finalTlds, hAB]
  rw [hfin]
  simp [filterMapByTlds, List.mem_filter]

/-- Witness for C9: `"A/x"` survives filtering with include `{A, B}`,
exclude `{B}`. -/
theorem scope_filtering_include_exclude_witness :
    ("A/x".toList, (⟨1, 2⟩ : FileEntry)) ∈
      filterMapByTlds (finalTlds ["A".toList, "B".toList] ["B".toList] [] [])
        [("A/x".toList, ⟨1, 2⟩)] :=
  (scope_filtering_include_exclude "A".toList "B".toList (by decide) [] []
      [("A/x".toList, ⟨1, 2⟩)] "A/x".toList ⟨1, 2⟩).mpr (by decide)

/-! ## Claims about `print_report` -/

/-- C4: with two identical non-empty maps the comparison yields an empty
change set, yet the report does not contain the no-differences notice and
does contain the detail-section header — the summary loop reads
`changes[dir_name]` on a `defaultdict`, vivifying one key per listed
directory, so the later `if not changes:` guard sees a non-empty dict.
Only with two empty maps is the notice printed. -/
theorem empty_changes_detail_header_printed :
    compare_listings [("a".toList, ⟨1, 0⟩)] [("a".toList, ⟨1, 0⟩)] = [] ∧
    ReportEvent.noDifferences ∉
      report [("a".toList, ⟨1, 0⟩)] [("a".toList, ⟨1, 0⟩)] false false ∧
    ReportEvent.detailsHeader ∈
      report [("a".toList, ⟨1, 0⟩)] [("a".toList, ⟨1, 0⟩)] false false ∧
    ReportEvent.noDifferences ∈ report [] [] false false := by decide

/-- C5: in fix-command mode the whole fix block is nested inside the
per-directory detail loop, so with two divergent directories (`A/f` and
`B/g` present only on the source) every fix command is emitted twice —
once per divergent directory — rather than exactly once; with a single
divergent directory it is emitted once. -/
theorem fix_commands_duplicated_per_divergent_directory :
    (report [("A/f".toList, ⟨1, 0⟩), ("B/g".toList, ⟨1, 0⟩)] [] false true).countP
        (fun e => e = ReportEvent.fixHeader) = 2 ∧
    (report [("A/f".toList, ⟨1, 0⟩), ("B/g".toList, ⟨1, 0⟩)] [] false true).countP
        (fun e =>
          e = ReportEvent.scpCmd "/mnt/backup/A/f".toList "/mnt/user/A/f".toList) = 2 ∧
    (report [("A/f".toList, ⟨1, 0⟩)] [] false true).countP
        (fun e => e = ReportEvent.fixHeader) = 1 := by decide

end UnraidBackup
